import Mathlib

set_option maxHeartbeats 1000000

/-!
Shallow embedding of the OpenHamClock rig-listener bridge
(`rig-listener.js`): the shared radio state store with change
notification, the per-vendor protocol codecs (Yaesu and Kenwood
semicolon-terminated text CAT, Icom CI-V binary), the HTTP command
handlers, and the serial close/error event handlers, together with
proofs about them.

JS numbers that hold frequencies stay below 2^53, so machine
arithmetic is exact and they are modelled as `Nat`/`Int`; JS strings
are modelled as `List Char`; byte buffers as `List Nat` with each
element below 256.
-/

/-- A JS value as stored in a field of the radio state record:
a number, a string, or a boolean. -/

inductive JsValue where
  | int  (i : Int)
  | str  (s : List Char)
  | bool (b : Bool)
deriving DecidableEq, Repr

/-- The mutable `state` object of rig-listener.js (lines 61-68):
`{freq, mode, width, ptt, connected, lastUpdate}`. -/

structure RadioState where
  freq : Int
  mode : List Char
  width : Int
  ptt : Bool
  connected : Bool
  lastUpdate : Nat
deriving DecidableEq, Repr

/-- The initial value of the `state` object. -/

def initState : RadioState :=
  { freq := 0, mode := [], width := 0, ptt := false,
    connected := false, lastUpdate := 0 }

/-- The property names `updateState`/`broadcast` are invoked with. -/

inductive StateField where
  | freq | mode | width | ptt | connected
deriving DecidableEq, Repr

/-- `state[prop]` — dynamic read of a state field. -/

def getField (s : RadioState) : StateField → JsValue
  | .freq => .int s.freq
  | .mode => .str s.mode
  | .width => .int s.width
  | .ptt => .bool s.ptt
  | .connected => .bool s.connected

/-- `state[prop] = value` — dynamic write of a state field.  All call
sites in the program pass a value of the field's own type; the
mismatched cases below never arise and leave the state unchanged. -/

def setField (s : RadioState) (p : StateField) (v : JsValue) : RadioState :=
  match p, v with
  | .freq, .int i => { s with freq := i }
  | .mode, .str m => { s with mode := m }
  | .width, .int i => { s with width := i }
  | .ptt, .bool b => { s with ptt := b }
  | .connected, .bool b => { s with connected := b }
  | _, _ => s

/-- One SSE `{type:'update', prop, value}` message handed to
`broadcast`. -/

structure BroadcastMsg where
  prop : StateField
  value : JsValue
deriving DecidableEq, Repr

/-- `updateState(prop, value)` (lines 80-85): if the stored value is
strictly equal to the new one, return without mutating or notifying;
otherwise assign the field, stamp `lastUpdate = Date.now()` (passed
here as `now`), and broadcast one update message. -/

def updateState (p : StateField) (v : JsValue) (now : Nat) (s : RadioState) :
    RadioState × List BroadcastMsg :=
  if getField s p = v then (s, [])
  else ({ setField s p v with lastUpdate := now }, [⟨p, v⟩])

/-! ## Icom CI-V packed-decimal frequency codec -/

/-- Loop body of `IcomProtocol._bcdToFreq` (lines 308-320): running
over the first five data bytes, the low nibble contributes at the
current decimal weight and the high nibble at ten times it. -/

def bcdGo : List Nat → Nat → Nat
  | [], _ => 0
  | b :: rest, mult => b % 16 * mult + b / 16 % 16 * (mult * 10) + bcdGo rest (mult * 100)

/-- `IcomProtocol._bcdToFreq(data)`: decode little-endian packed BCD,
reading at most `Math.min(data.length, 5)` bytes. -/

def bcdToFreq (data : List Nat) : Nat :=
  bcdGo (data.take 5) 1

/-- Loop of `IcomProtocol._freqToBcd` (lines 322-331): peel two
decimal digits per byte, low nibble first. -/

def freqToBcdLoop : Nat → Nat → List Nat
  | _, 0 => []
  | f, n + 1 =>
    let lo := f % 10
    let f1 := f / 10
    let hi := f1 % 10
    (hi * 16 + lo) :: freqToBcdLoop (f1 / 10) n

/-- `IcomProtocol._freqToBcd(hz)`: five packed-BCD bytes,
little-endian. -/

def freqToBcd (hz : Nat) : List Nat :=
  freqToBcdLoop hz 5

/-! ## JS string and number primitives used by the text codecs -/

/-- Decimal digit test (`0`-`9`). -/

def isDig (c : Char) : Bool := 48 ≤ c.toNat && c.toNat ≤ 57

/-- Whitespace skipped by JS `parseInt`. -/

def isSpaceChar (c : Char) : Bool :=
  c.toNat = 32 || c.toNat = 9 || c.toNat = 10 || c.toNat = 13

/-- Value of a hexadecimal digit character, if it is one. -/

def hexDigVal (c : Char) : Option Nat :=
  if 48 ≤ c.toNat ∧ c.toNat ≤ 57 then some (c.toNat - 48)
  else if 97 ≤ c.toNat ∧ c.toNat ≤ 102 then some (c.toNat - 87)
  else if 65 ≤ c.toNat ∧ c.toNat ≤ 70 then some (c.toNat - 55)
  else none

/-- Hexadecimal digit test. -/

def isHexDig (c : Char) : Bool := (hexDigVal c).isSome

/-- Left fold turning a run of decimal digit characters into a number. -/

def digitsVal : List Char → Nat → Nat
  | [], acc => acc
  | c :: r, acc => digitsVal r (acc * 10 + (c.toNat - 48))

/-- Left fold turning a run of hexadecimal digit characters into a number. -/

def hexsVal : List Char → Nat → Nat
  | [], acc => acc
  | c :: r, acc => hexsVal r (acc * 16 + (hexDigVal c).getD 0)

/-- Maximal leading decimal digit run, `none` when there is none (NaN). -/

def parseDecDigits (l : List Char) : Option Nat :=
  match l.takeWhile isDig with
  | [] => none
  | ds => some (digitsVal ds 0)

/-- Maximal leading hexadecimal digit run, `none` when there is none. -/

def parseHexDigits (l : List Char) : Option Nat :=
  match l.takeWhile isHexDig with
  | [] => none
  | ds => some (hexsVal ds 0)

/-- JS `parseInt(s)` with no radix argument, as the codecs call it:
skip leading whitespace, accept an optional sign, auto-detect a
`0x`/`0X` hexadecimal prefix, read the maximal digit run; `none`
models `NaN`. -/

def jsParseInt (s : List Char) : Option Int :=
  let r := s.dropWhile isSpaceChar
  let sign : Int := if r.headD ' ' = '-' then -1 else 1
  let r1 := if r.headD ' ' = '-' ∨ r.headD ' ' = '+' then r.tail else r
  let num : Option Nat :=
    if r1.take 2 = ['0', 'x'] ∨ r1.take 2 = ['0', 'X'] then parseHexDigits (r1.drop 2)
    else parseDecDigits r1
  num.map (fun n => sign * (n : Int))

/-- Decimal digit character for a value below ten (the only values the
program produces digits for; the catch-all is unreachable). -/

def digitChar : Nat → Char
  | 0 => '0' | 1 => '1' | 2 => '2' | 3 => '3' | 4 => '4'
  | 5 => '5' | 6 => '6' | 7 => '7' | 8 => '8' | _ => '9'

/-- JS `String(n)` for a natural number. -/

def natDigits (n : Nat) : List Char :=
  if n < 10 then [digitChar n]
  else natDigits (n / 10) ++ [digitChar (n % 10)]
decreasing_by exact Nat.div_lt_self (by omega) (by omega)

/-- JS `s.padStart(n, c)`. -/

def padStart (n : Nat) (c : Char) (s : List Char) : List Char :=
  List.replicate (n - s.length) c ++ s

/-! ## Text-protocol framing: the shared semicolon buffer loop -/

/-- The `while ((idx = buffer.indexOf(';')) !== -1)` loop shared by
`YaesuProtocol.parseResponse` and `KenwoodProtocol.parseResponse`
(lines 111-114 and 175-178): peel every semicolon-terminated command
off the front of the buffer, keeping the rest buffered. -/

def splitSemis : List Char → List (List Char) × List Char
  | [] => ([], [])
  | c :: rest =>
    let p := splitSemis rest
    if c = ';' then ([';'] :: p.1, p.2)
    else
      match p.1 with
      | [] => ([], c :: p.2)
      | cmd :: cmds => ((c :: cmd) :: cmds, p.2)

/-! ## Yaesu and Kenwood text CAT codecs -/

/-- `YAESU_MODES` (lines 91-95). -/

def yaesuModes : Char → Option (List Char)
  | '1' => some ("LSB".toList)
  | '2' => some ("USB".toList)
  | '3' => some ("CW".toList)
  | '4' => some ("FM".toList)
  | '5' => some ("AM".toList)
  | '6' => some ("RTTY-LSB".toList)
  | '7' => some ("CW-R".toList)
  | '8' => some ("DATA-LSB".toList)
  | '9' => some ("RTTY-USB".toList)
  | 'A' => some ("DATA-FM".toList)
  | 'B' => some ("FM-N".toList)
  | 'C' => some ("DATA-USB".toList)
  | 'D' => some ("AM-N".toList)
  | _ => none

/-- `KENWOOD_MODES` (lines 156-159). -/

def kenwoodModes : Char → Option (List Char)
  | '1' => some ("LSB".toList)
  | '2' => some ("USB".toList)
  | '3' => some ("CW".toList)
  | '4' => some ("FM".toList)
  | '5' => some ("AM".toList)
  | '6' => some ("FSK".toList)
  | '7' => some ("CW-R".toList)
  | '9' => some ("FSK-R".toList)
  | _ => none

/-- One iteration of the `for (const cmd of commands)` loop of
`YaesuProtocol.parseResponse` (lines 115-134). -/

def yaesuProcessCmd (now : Nat) (st : RadioState) (cmd : List Char) :
    RadioState × List BroadcastMsg :=
  if cmd.take 2 = ['F', 'A'] ∧ 11 ≤ cmd.length then
    match jsParseInt ((cmd.drop 2).take (cmd.length - 3)) with
    | some f => if 0 < f then updateState .freq (.int f) now st else (st, [])
    | none => (st, [])
  else if cmd.take 3 = ['M', 'D', '0'] ∧ 4 ≤ cmd.length then
    updateState .mode (.str ((yaesuModes (cmd.getD 3 ' ')).getD [cmd.getD 3 ' '])) now st
  else if cmd.take 2 = ['T', 'X'] ∧ 3 ≤ cmd.length then
    updateState .ptt (.bool (cmd.getD 2 ' ' != '0')) now st
  else if cmd.take 2 = ['I', 'F'] ∧ 27 ≤ cmd.length then
    let r1 :=
      match jsParseInt ((cmd.drop 5).take 9) with
      | some f => if 0 < f then updateState .freq (.int f) now st else (st, [])
      | none => (st, [])
    let r2 := updateState .mode
      (.str ((yaesuModes (cmd.getD 21 ' ')).getD [cmd.getD 21 ' '])) now r1.1
    (r2.1, r1.2 ++ r2.2)
  else (st, [])

/-- One iteration of the command loop of
`KenwoodProtocol.parseResponse` (lines 179-198). -/

def kenwoodProcessCmd (now : Nat) (st : RadioState) (cmd : List Char) :
    RadioState × List BroadcastMsg :=
  if cmd.take 2 = ['F', 'A'] ∧ 13 ≤ cmd.length then
    match jsParseInt ((cmd.drop 2).take (cmd.length - 3)) with
    | some f => if 0 < f then updateState .freq (.int f) now st else (st, [])
    | none => (st, [])
  else if cmd.take 2 = ['M', 'D'] ∧ 3 ≤ cmd.length then
    updateState .mode (.str ((kenwoodModes (cmd.getD 2 ' ')).getD [cmd.getD 2 ' '])) now st
  else if cmd.take 2 = ['T', 'X'] ∧ 3 ≤ cmd.length then
    updateState .ptt (.bool (cmd.getD 2 ' ' != '0')) now st
  else if cmd.take 2 = ['I', 'F'] ∧ 37 ≤ cmd.length then
    let r1 :=
      match jsParseInt ((cmd.drop 2).take 11) with
      | some f => if 0 < f then updateState .freq (.int f) now st else (st, [])
      | none => (st, [])
    let r2 := updateState .mode
      (.str ((kenwoodModes (cmd.getD 29 ' ')).getD [cmd.getD 29 ' '])) now r1.1
    (r2.1, r1.2 ++ r2.2)
  else (st, [])

/-- The per-command loop of a text protocol's `parseResponse`,
threading the state and collecting the broadcasts in order. -/

def processCmds (h : RadioState → List Char → RadioState × List BroadcastMsg) :
    RadioState → List (List Char) → RadioState × List BroadcastMsg
  | st, [] => (st, [])
  | st, c :: cs =>
    let r := h st c
    let rs := processCmds h r.1 cs
    (rs.1, r.2 ++ rs.2)

/-- A whole `parseResponse(chunk)` call of a text protocol: append the
chunk to the buffer, split off every complete command, process each;
returns the new state, the new buffer and the emitted broadcasts. -/

def feedText (h : RadioState → List Char → RadioState × List BroadcastMsg)
    (st : RadioState) (buf chunk : List Char) :
    RadioState × List Char × List BroadcastMsg :=
  let p := splitSemis (buf ++ chunk)
  let r := processCmds h st p.1
  (r.1, p.2, r.2)

/-- `YaesuProtocol.parseResponse`. -/

def yaesuFeed (now : Nat) (st : RadioState) (buf chunk : List Char) :
    RadioState × List Char × List BroadcastMsg :=
  feedText (yaesuProcessCmd now) st buf chunk

/-- `KenwoodProtocol.parseResponse`. -/

def kenwoodFeed (now : Nat) (st : RadioState) (buf chunk : List Char) :
    RadioState × List Char × List BroadcastMsg :=
  feedText (kenwoodProcessCmd now) st buf chunk

/-! ## Icom CI-V binary codec -/

/-- `ICOM_MODES` (lines 220-224). -/

def icomModes : Nat → Option (List Char)
  | 0 => some ("LSB".toList)
  | 1 => some ("USB".toList)
  | 2 => some ("AM".toList)
  | 3 => some ("CW".toList)
  | 4 => some ("RTTY".toList)
  | 5 => some ("FM".toList)
  | 6 => some ("WFM".toList)
  | 7 => some ("CW-R".toList)
  | 8 => some ("RTTY-R".toList)
  | 23 => some ("DV".toList)
  | _ => none

/-- Lowercase hexadecimal digit characters, as JS `toString(16)`
produces; only applied to values below sixteen. -/

def hexDigitChar : Nat → Char
  | 0 => '0' | 1 => '1' | 2 => '2' | 3 => '3' | 4 => '4' | 5 => '5'
  | 6 => '6' | 7 => '7' | 8 => '8' | 9 => '9' | 10 => 'a' | 11 => 'b'
  | 12 => 'c' | 13 => 'd' | 14 => 'e' | _ => 'f'

/-- JS `n.toString(16)` for a natural number. -/

def natHex (n : Nat) : List Char :=
  if n < 16 then [hexDigitChar n]
  else natHex (n / 16) ++ [hexDigitChar (n % 16)]
decreasing_by exact Nat.div_lt_self (by omega) (by omega)

/-- `ICOM_MODES[data[0]] || 'MODE_' + hex` (line 296). -/

def icomModeName (b : Nat) : List Char :=
  match icomModes b with
  | some m => m
  | none => ("MODE_".toList) ++ natHex b

/-- The fixed local controller address, `IcomProtocol.controllerAddr = 0xE0`. -/

def controllerAddr : Nat := 224

/-- Processing of one extracted CI-V frame: the body of the extraction
loop from the length check on (lines 274-304 of
`IcomProtocol.parseResponse`). -/

def icomProcessFrame (now : Nat) (st : RadioState) (frame : List Nat) :
    RadioState × List BroadcastMsg :=
  if frame.length < 6 then (st, [])
  else if frame.getD 2 0 ≠ controllerAddr then (st, [])
  else
    let cmd := frame.getD 4 0
    let data := (frame.drop 5).take (frame.length - 6)
    if cmd = 3 ∨ cmd = 0 then
      if 5 ≤ data.length then
        let f : Int := (bcdToFreq data : Int)
        if 0 < f then updateState .freq (.int f) now st else (st, [])
      else (st, [])
    else if cmd = 4 ∨ cmd = 1 then
      if 1 ≤ data.length then
        updateState .mode (.str (icomModeName (data.getD 0 0))) now st
      else (st, [])
    else if cmd = 28 then
      if 2 ≤ data.length ∧ data.getD 0 0 = 0 then
        updateState .ptt (.bool (data.getD 1 0 == 1)) now st
      else (st, [])
    else (st, [])

/-- `buffer.indexOf(Buffer.from([0xFE, 0xFE]))`: index of the first
adjacent `FE FE` pair. -/

def findPreamble : List Nat → Option Nat
  | [] => none
  | [_] => none
  | a :: b :: rest =>
    if a = 254 ∧ b = 254 then some 0
    else (findPreamble (b :: rest)).map (· + 1)

/-- `buffer.indexOf(0xFD, start)` as an absolute index. -/

def findFD (buf : List Nat) (start : Nat) : Option Nat :=
  ((buf.drop start).findIdx? (· == 253)).map (· + start)

/-- The `while (true)` frame-extraction loop of
`IcomProtocol.parseResponse` (lines 258-305).  `fuel` bounds the
iteration count; every iteration that recurses drops at least three
bytes from the buffer, so `buffer.length + 1` fuel never runs out and
the zero-fuel branch is unreachable as called. -/

def icomLoop (now : Nat) :
    Nat → RadioState → List Nat → RadioState × List Nat × List BroadcastMsg
  | 0, st, buf => (st, buf, [])
  | fuel + 1, st, buf =>
    match findPreamble buf with
    | none => (st, [], [])
    | some start =>
      match findFD buf (start + 2) with
      | none => (st, buf.drop start, [])
      | some endIdx =>
        let frame := (buf.drop start).take (endIdx + 1 - start)
        let rest := buf.drop (endIdx + 1)
        let r := icomProcessFrame now st frame
        let r2 := icomLoop now fuel r.1 rest
        (r2.1, r2.2.1, r.2 ++ r2.2.2)

/-- `IcomProtocol.parseResponse(chunk)`. -/

def icomFeed (now : Nat) (st : RadioState) (buf chunk : List Nat) :
    RadioState × List Nat × List BroadcastMsg :=
  icomLoop now (buf.length + chunk.length + 1) st (buf ++ chunk)

/-! ## Protocol selection, outgoing commands, HTTP handlers -/

/-- The vendor protocol objects the bridge dispatches on. -/

inductive Protocol where
  | yaesu
  | kenwood
  | icom (civ : Nat)
  | mock
deriving DecidableEq, Repr

/-- Bytes written to the serial transport: text protocols write
strings, the binary protocol writes byte buffers. -/

inductive Wire where
  | text (s : List Char)
  | bin (b : List Nat)
deriving DecidableEq, Repr

/-- `IcomProtocol._frame(payload)` (lines 249-252):
`FE FE civAddr controllerAddr payload... FD`. -/

def icomFrame (civ : Nat) (payload : List Nat) : List Nat :=
  [254, 254, civ, controllerAddr] ++ payload ++ [253]

/-- `YaesuProtocol.setFreqCmd(hz)` (lines 137-139). -/

def yaesuSetFreqStr (hz : Nat) : List Char :=
  ['F', 'A'] ++ padStart 9 '0' (natDigits hz) ++ [';']

/-- `KenwoodProtocol.setFreqCmd(hz)` (lines 201-203). -/

def kenwoodSetFreqStr (hz : Nat) : List Char :=
  ['F', 'A'] ++ padStart 11 '0' (natDigits hz) ++ [';']

/-- `protocol.setFreqCmd(hz)` across the protocol objects; `none`
models a `null` return (only the mock returns one). -/

def setFreqCmd : Protocol → Nat → Option Wire
  | .yaesu, hz => some (.text (yaesuSetFreqStr hz))
  | .kenwood, hz => some (.text (kenwoodSetFreqStr hz))
  | .icom civ, hz => some (.bin (icomFrame civ (5 :: freqToBcd hz)))
  | .mock, _ => none

/-- `protocol.setPttCmd(on)` across the protocol objects. -/

def setPttCmd : Protocol → Bool → Option Wire
  | .yaesu, b => some (.text (if b then ("TX1;".toList) else ("TX0;".toList)))
  | .kenwood, b => some (.text (if b then ("TX1;".toList) else ("RX;".toList)))
  | .icom civ, b => some (.bin (icomFrame civ [28, 0, if b then 1 else 0]))
  | .mock, _ => none

/-- An HTTP response: status code and optional `{error}` body text. -/

structure HttpResp where
  status : Nat
  error : Option (List Char)
deriving DecidableEq, Repr

/-- The parsed JSON body of a POST `/freq` request: `freq` is the
numeric field if present.  A `none` body models an absent or
unparsable JSON document. -/

structure FreqBody where
  freq : Option Nat
deriving DecidableEq, Repr

/-- The parsed JSON body of a POST `/ptt` request. -/

structure PttBody where
  ptt : Bool
deriving DecidableEq, Repr

def missingFreqMsg : List Char := "Missing freq".toList

def pttDisabledMsg : List Char := "PTT disabled in configuration".toList

/-- The POST `/freq` handler (lines 561-577): reject a missing or
falsy `freq` with 400; otherwise encode and, when a frame came back,
hand it to `sendToRadio`; always answer 200 after that. -/

def handleFreq (body : Option FreqBody) (p : Protocol) : HttpResp × List Wire :=
  match body with
  | none => (⟨400, some missingFreqMsg⟩, [])
  | some b =>
    match b.freq with
    | none => (⟨400, some missingFreqMsg⟩, [])
    | some 0 => (⟨400, some missingFreqMsg⟩, [])
    | some f =>
      match setFreqCmd p f with
      | some w => (⟨200, none⟩, [w])
      | none => (⟨200, none⟩, [])

/-- The POST `/ptt` handler (lines 601-617): a truthy `ptt` while
`pttEnabled` is false is rejected with 403 and nothing is written;
otherwise the codec's PTT frame, when non-null, is handed to
`sendToRadio` and the reply is 200. -/

def handlePtt (pttEnabled : Bool) (body : Option PttBody) (p : Protocol) :
    HttpResp × List Wire :=
  let bptt := (body.map PttBody.ptt).getD false
  if pttEnabled = false ∧ bptt = true then (⟨403, some pttDisabledMsg⟩, [])
  else
    match setPttCmd p bptt with
    | some w => (⟨200, none⟩, [w])
    | none => (⟨200, none⟩, [])

/-! ## Serial close/error event handlers -/

/-- The `serialPort.on('error')` handler (lines 449-453): set
`connected = false`, broadcast it, schedule nothing. -/

def onSerialError (s : RadioState) :
    RadioState × List BroadcastMsg × List Nat :=
  ({ s with connected := false }, [⟨.connected, .bool false⟩], [])

/-- The `serialPort.on('close')` handler (lines 455-461): set
`connected = false`, broadcast it, cancel polling and schedule a
reconnect after the fixed 5000 ms delay (the third component lists
the delays of the reconnects scheduled by the handler). -/

def onSerialClose (s : RadioState) :
    RadioState × List BroadcastMsg × List Nat :=
  ({ s with connected := false }, [⟨.connected, .bool false⟩], [5000])

/-- A state as it stands while the serial port is open. -/

def connectedState : RadioState :=
  { freq := 14074000, mode := ("USB".toList), width := 0, ptt := false,
    connected := true, lastUpdate := 0 }

/-- Truthiness of the `freq` field of a POST `/freq` body: absent
body, absent field, or the number 0. -/

def freqBodyFalsy : Option FreqBody → Prop
  | none => True
  | some b => b.freq = none ∨ b.freq = some 0

theorem freqToBcdLoop_length (f n : Nat) : (freqToBcdLoop f n).length = n := by
  induction n generalizing f with
  | zero => rfl
  | succ n ih => simp [freqToBcdLoop, ih]

/-- Decoding the encoder's output recovers the frequency modulo
`10 ^ (2 * n)` after `n` loop iterations, at any decimal weight. -/

theorem bcdGo_freqToBcdLoop (n : Nat) :
    ∀ f m, bcdGo (freqToBcdLoop f n) m = f % 10 ^ (2 * n) * m := by
  induction n with
  | zero => intro f m; simp [freqToBcdLoop, bcdGo, Nat.mod_one]
  | succ n ih =>
    intro f m
    have hlo : (f / 10 % 10 * 16 + f % 10) % 16 = f % 10 := by
      rw [Nat.mul_comm _ 16, Nat.mul_add_mod]
      exact Nat.mod_eq_of_lt (by omega)
    have hhi : (f / 10 % 10 * 16 + f % 10) / 16 % 16 = f / 10 % 10 := by
      have h0 : f % 10 / 16 = 0 := Nat.div_eq_of_lt (by omega)
      rw [Nat.mul_comm _ 16, Nat.mul_add_div (by omega), h0, Nat.add_zero]
      exact Nat.mod_eq_of_lt (by omega)
    simp only [freqToBcdLoop, bcdGo, hlo, hhi, ih]
    have hsplit : f % 10 ^ (2 * (n + 1)) = f % 100 + 100 * (f / 100 % 10 ^ (2 * n)) := by
      have h1 : 10 ^ (2 * (n + 1)) = 100 * 10 ^ (2 * n) := by ring
      rw [h1, Nat.mod_mul]
    have hsplit2 : f % 100 = f % 10 + 10 * (f / 10 % 10) := by
      have h2 : (100 : Nat) = 10 * 10 := by norm_num
      rw [h2, Nat.mod_mul]
    have hdiv : f / 10 / 10 = f / 100 := by
      rw [Nat.div_div_eq_div_mul]
    rw [hdiv, hsplit, hsplit2]
    ring

/-- Upper bound on the decoder loop: with all nibbles at their 15
maximum, `n` bytes at weight `m` contribute at most
`5 * (100 ^ n - 1) / 3 * m` (stated multiplied by 3 to stay in `Nat`). -/

theorem bcdGo_bound : ∀ (l : List Nat) (m : Nat),
    3 * bcdGo l m + 5 * m ≤ 5 * 100 ^ l.length * m := by
  intro l
  induction l with
  | nil => intro m; simp [bcdGo]
  | cons b rest ih =>
    intro m
    have hb1 : b % 16 ≤ 15 := by omega
    have hb2 : b / 16 % 16 ≤ 15 := by omega
    have h1 : 3 * (b % 16 * m) ≤ 45 * m := by
      calc 3 * (b % 16 * m) = 3 * (b % 16) * m := by ring
        _ ≤ 45 * m := Nat.mul_le_mul_right m (by omega)
    have h2 : 3 * (b / 16 % 16 * (m * 10)) ≤ 450 * m := by
      calc 3 * (b / 16 % 16 * (m * 10)) = 3 * (b / 16 % 16) * 10 * m := by ring
        _ ≤ 450 * m := Nat.mul_le_mul_right m (by omega)
    have hr := ih (m * 100)
    have hrest : 3 * bcdGo rest (m * 100) + 500 * m ≤ 500 * 100 ^ rest.length * m := by
      calc 3 * bcdGo rest (m * 100) + 500 * m
          = 3 * bcdGo rest (m * 100) + 5 * (m * 100) := by ring
        _ ≤ 5 * 100 ^ rest.length * (m * 100) := hr
        _ = 500 * 100 ^ rest.length * m := by ring
    have hgoal : 5 * 100 ^ (b :: rest).length * m = 500 * 100 ^ rest.length * m := by
      rw [List.length_cons, pow_succ]; ring
    rw [hgoal]
    simp only [bcdGo]
    calc 3 * (b % 16 * m + b / 16 % 16 * (m * 10) + bcdGo rest (m * 100)) + 5 * m
        = 3 * (b % 16 * m) + 3 * (b / 16 % 16 * (m * 10)) +
            (3 * bcdGo rest (m * 100) + 5 * m) := by ring
      _ ≤ 45 * m + 450 * m + (3 * bcdGo rest (m * 100) + 5 * m) :=
          Nat.add_le_add (Nat.add_le_add h1 h2) le_rfl
      _ = 3 * bcdGo rest (m * 100) + 500 * m := by ring
      _ ≤ 500 * 100 ^ rest.length * m := hrest

/-- C1: for every frequency `f` up to the five-byte packed-decimal
maximum 9,999,999,999 Hz, `_bcdToFreq(_freqToBcd(f)) == f`; and the
decoder is total on arbitrary byte sequences, its value always
bounded (so decode can never throw or overflow). -/

theorem icom_bcd_roundtrip :
    (∀ f : Nat, f ≤ 9999999999 → bcdToFreq (freqToBcd f) = f) ∧
    (∀ data : List Nat, bcdToFreq data ≤ 16666666665) := by
  constructor
  · intro f hf
    have hlen : (freqToBcdLoop f 5).length = 5 := freqToBcdLoop_length f 5
    have htake : (freqToBcdLoop f 5).take 5 = freqToBcdLoop f 5 := by
      rw [← hlen]; exact List.take_length _
    rw [bcdToFreq, freqToBcd, htake, bcdGo_freqToBcdLoop]
    have hpow : (10 : Nat) ^ (2 * 5) = 10000000000 := by norm_num
    have : f % 10 ^ (2 * 5) = f := Nat.mod_eq_of_lt (by omega)
    rw [this, Nat.mul_one]
  · intro data
    have h := bcdGo_bound (data.take 5) 1
    have hlen : (data.take 5).length ≤ 5 := by
      simp [List.length_take]
    have hpow : (100 : Nat) ^ (data.take 5).length ≤ 100 ^ 5 :=
      Nat.pow_le_pow_right (by omega) hlen
    have hb : 3 * bcdGo (data.take 5) 1 + 5 ≤ 5 * 100 ^ 5 := by
      calc 3 * bcdGo (data.take 5) 1 + 5
          = 3 * bcdGo (data.take 5) 1 + 5 * 1 := by ring
        _ ≤ 5 * 100 ^ (data.take 5).length * 1 := h
        _ ≤ 5 * 100 ^ 5 := by
            have := Nat.mul_le_mul_left 5 hpow
            omega
    rw [bcdToFreq]
    norm_num at hb
    omega

/-- Witness for C1 at the five-byte maximum. -/

theorem icom_bcd_roundtrip_witness :
    bcdToFreq (freqToBcd 9999999999) = 9999999999 :=
  icom_bcd_roundtrip.1 9999999999 (by norm_num)

theorem digitChar_toNat {d : Nat} (h : d < 10) : (digitChar d).toNat = 48 + d := by
  interval_cases d <;> decide

theorem isDig_digitChar {d : Nat} (h : d < 10) : isDig (digitChar d) = true := by
  interval_cases d <;> decide

theorem natDigits_all_dig (n : Nat) : ∀ c ∈ natDigits n, isDig c = true := by
  induction n using Nat.strong_induction_on with
  | _ n ih =>
    rw [natDigits]
    split
    · intro c hc
      rw [List.mem_singleton] at hc
      subst hc
      exact isDig_digitChar (by omega)
    · next h =>
      intro c hc
      rw [List.mem_append] at hc
      rcases hc with hc | hc
      · exact ih (n / 10) (Nat.div_lt_self (by omega) (by omega)) c hc
      · rw [List.mem_singleton] at hc
        subst hc
        exact isDig_digitChar (Nat.mod_lt _ (by omega))

theorem natDigits_ne_nil (n : Nat) : natDigits n ≠ [] := by
  rw [natDigits]
  split
  · simp
  · simp

theorem digitsVal_append (a b : List Char) (acc : Nat) :
    digitsVal (a ++ b) acc = digitsVal b (digitsVal a acc) := by
  induction a generalizing acc with
  | nil => rfl
  | cons c r ih => simp [digitsVal, ih]

theorem digitsVal_natDigits (n : Nat) :
    ∀ acc, digitsVal (natDigits n) acc = acc * 10 ^ (natDigits n).length + n := by
  induction n using Nat.strong_induction_on with
  | _ n ih =>
    intro acc
    rw [natDigits]
    split
    · next h =>
      simp only [digitsVal, digitChar_toNat h, List.length_singleton, pow_one]
      omega
    · next h =>
      rw [digitsVal_append, ih (n / 10) (Nat.div_lt_self (by omega) (by omega))]
      have hm : n % 10 < 10 := Nat.mod_lt _ (by omega)
      simp only [digitsVal, digitChar_toNat hm, List.length_append,
        List.length_singleton, pow_succ]
      have h48 : 48 + n % 10 - 48 = n % 10 := by omega
      rw [h48, ← Nat.mul_assoc]
      generalize acc * 10 ^ (natDigits (n / 10)).length = X
      omega

theorem takeWhile_of_all {p : Char → Bool} :
    ∀ l : List Char, (∀ c ∈ l, p c = true) → l.takeWhile p = l := by
  intro l h
  induction l with
  | nil => rfl
  | cons c r ih =>
    rw [List.takeWhile_cons, h c (List.mem_cons_self c r)]
    rw [ih fun d hd => h d (List.mem_cons_of_mem c hd)]
    simp

theorem parseDecDigits_all (l : List Char) (hne : l ≠ [])
    (hd : ∀ c ∈ l, isDig c = true) :
    parseDecDigits l = some (digitsVal l 0) := by
  unfold parseDecDigits
  rw [takeWhile_of_all l hd]
  cases l with
  | nil => exact absurd rfl hne
  | cons c t => rfl

theorem jsParseInt_digits (l : List Char) (hne : l ≠ [])
    (hd : ∀ c ∈ l, isDig c = true) :
    jsParseInt l = some ((digitsVal l 0 : Nat) : Int) := by
  cases l with
  | nil => exact absurd rfl hne
  | cons c t =>
    have hc : isDig c = true := hd c (List.mem_cons_self c t)
    have hcn : 48 ≤ c.toNat ∧ c.toNat ≤ 57 := by
      simpa [isDig] using hc
    have hsp : isSpaceChar c = false := by
      simp [isSpaceChar]
      omega
    have hns : c ≠ '-' := by
      intro h; subst h; exact absurd hc (by decide)
    have hnp : c ≠ '+' := by
      intro h; subst h; exact absurd hc (by decide)
    have hhex : ¬((c :: t).take 2 = ['0', 'x'] ∨ (c :: t).take 2 = ['0', 'X']) := by
      rintro (h | h) <;>
      · cases t with
        | nil => simp at h
        | cons d t' =>
          simp only [List.take_succ_cons, List.take_succ_cons, List.take_zero] at h
          have hdd := hd d (List.mem_cons_of_mem c (List.mem_cons_self d t'))
          have h2 : d = 'x' ∨ d = 'X' := by
            rcases List.cons.inj h with ⟨-, h2⟩
            rcases List.cons.inj h2 with ⟨h3, -⟩
            first
            | exact Or.inl h3
            | exact Or.inr h3
          rcases h2 with rfl | rfl <;> exact absurd hdd (by decide)
    rw [jsParseInt]
    have hdw : (c :: t).dropWhile isSpaceChar = c :: t := by
      rw [List.dropWhile_cons, hsp]
      simp
    simp only [hdw, List.headD_cons]
    rw [if_neg hns, if_neg (show ¬(c = '-' ∨ c = '+') by simp [hns, hnp]), if_neg hhex]
    rw [parseDecDigits_all _ hne hd]
    simp

theorem padStart_digits_parse (w n : Nat) :
    jsParseInt (padStart w '0' (natDigits n)) = some (n : Int) := by
  have hall : ∀ c ∈ padStart w '0' (natDigits n), isDig c = true := by
    intro c hc
    rw [padStart, List.mem_append] at hc
    rcases hc with hc | hc
    · rw [List.eq_of_mem_replicate hc]; decide
    · exact natDigits_all_dig n c hc
  have hne : padStart w '0' (natDigits n) ≠ [] := by
    rw [padStart]
    intro h
    rcases List.append_eq_nil.mp h with ⟨-, h2⟩
    exact natDigits_ne_nil n h2
  rw [jsParseInt_digits _ hne hall, padStart, digitsVal_append]
  have hz : ∀ k, digitsVal (List.replicate k '0') 0 = 0 := by
    intro k
    induction k with
    | zero => rfl
    | succ k ih => simpa [List.replicate_succ, digitsVal] using ih
  rw [hz, digitsVal_natDigits]
  simp

/-- Unfolding equation: a leading semicolon closes an empty command. -/

theorem splitSemis_cons_semi (rest : List Char) :
    splitSemis (';' :: rest) = ([';'] :: (splitSemis rest).1, (splitSemis rest).2) := by
  simp [splitSemis]

/-- Unfolding equation: any other character prepends to the first
command when one exists, else stays buffered. -/

theorem splitSemis_cons_ne (c : Char) (rest : List Char) (hc : c ≠ ';') :
    splitSemis (c :: rest) =
      (match (splitSemis rest).1 with
       | [] => ([], c :: (splitSemis rest).2)
       | cmd :: cmds => ((c :: cmd) :: cmds, (splitSemis rest).2)) := by
  simp [splitSemis, hc]

/-- Splitting a concatenation first yields the commands of the prefix,
then those of the retained remainder joined with the suffix: the
central buffering lemma. -/

theorem splitSemis_append (s t : List Char) :
    splitSemis (s ++ t) =
      ((splitSemis s).1 ++ (splitSemis ((splitSemis s).2 ++ t)).1,
       (splitSemis ((splitSemis s).2 ++ t)).2) := by
  induction s with
  | nil => simp [splitSemis]
  | cons c s ih =>
    by_cases hc : c = ';'
    · subst hc
      rw [List.cons_append, splitSemis_cons_semi, splitSemis_cons_semi, ih]
      simp
    · rw [List.cons_append, splitSemis_cons_ne c _ hc, splitSemis_cons_ne c _ hc, ih]
      cases hA : (splitSemis s).1 with
      | nil =>
        have hinner := splitSemis_cons_ne c ((splitSemis s).2 ++ t) hc
        cases hB1 : (splitSemis ((splitSemis s).2 ++ t)).1 <;>
          simp [hA, hB1, hinner]
      | cons cmd cmds =>
        simp [hA]

theorem processCmds_append
    (h : RadioState → List Char → RadioState × List BroadcastMsg)
    (st : RadioState) (l1 l2 : List (List Char)) :
    processCmds h st (l1 ++ l2) =
      ((processCmds h (processCmds h st l1).1 l2).1,
       (processCmds h st l1).2 ++ (processCmds h (processCmds h st l1).1 l2).2) := by
  induction l1 generalizing st with
  | nil => simp [processCmds]
  | cons c cs ih => simp [processCmds, ih]

/-- Feeding a text protocol a chunk split in two is the same as one
contiguous chunk: same final state, same final buffer, same broadcast
sequence. -/

theorem feedText_split (h : RadioState → List Char → RadioState × List BroadcastMsg)
    (st : RadioState) (buf a b : List Char) :
    feedText h st buf (a ++ b) =
      ((feedText h (feedText h st buf a).1 (feedText h st buf a).2.1 b).1,
       (feedText h (feedText h st buf a).1 (feedText h st buf a).2.1 b).2.1,
       (feedText h st buf a).2.2 ++
         (feedText h (feedText h st buf a).1 (feedText h st buf a).2.1 b).2.2) := by
  simp only [feedText]
  rw [← List.append_assoc, splitSemis_append, processCmds_append]

/-! ## Helper lemmas about the state store -/

theorem updateState_freq_preserve (p : StateField) (v : JsValue) (now : Nat)
    (s : RadioState) (hp : p ≠ .freq) :
    ((updateState p v now s).1).freq = s.freq := by
  rw [updateState]
  split
  · rfl
  · cases p with
    | freq => exact absurd rfl hp
    | mode => cases v <;> rfl
    | width => cases v <;> rfl
    | ptt => cases v <;> rfl
    | connected => cases v <;> rfl

theorem updateState_freq_result (f : Int) (now : Nat) (s : RadioState) :
    ((updateState .freq (.int f) now s).1).freq = s.freq ∨
      ((updateState .freq (.int f) now s).1).freq = f := by
  rw [updateState]
  split
  · exact Or.inl rfl
  · exact Or.inr rfl

theorem yaesu_freq_invariant (now : Nat) (st : RadioState) (cmd : List Char) :
    (yaesuProcessCmd now st cmd).1.freq = st.freq ∨
      0 < (yaesuProcessCmd now st cmd).1.freq := by
  unfold yaesuProcessCmd
  split
  · split
    · next f heq =>
      split
      · next hf =>
        rcases updateState_freq_result f now st with h | h
        · exact Or.inl h
        · rw [h]; exact Or.inr hf
      · exact Or.inl rfl
    · exact Or.inl rfl
  · split
    · exact Or.inl (updateState_freq_preserve _ _ _ _ (by decide))
    · split
      · exact Or.inl (updateState_freq_preserve _ _ _ _ (by decide))
      · split
        · dsimp only
          rw [updateState_freq_preserve _ _ _ _ (by decide)]
          split
          · next f heq =>
            split
            · next hf =>
              rcases updateState_freq_result f now st with h | h
              · exact Or.inl h
              · rw [h]; exact Or.inr hf
            · exact Or.inl rfl
          · exact Or.inl rfl
        · exact Or.inl rfl

theorem kenwood_freq_invariant (now : Nat) (st : RadioState) (cmd : List Char) :
    (kenwoodProcessCmd now st cmd).1.freq = st.freq ∨
      0 < (kenwoodProcessCmd now st cmd).1.freq := by
  unfold kenwoodProcessCmd
  split
  · split
    · next f heq =>
      split
      · next hf =>
        rcases updateState_freq_result f now st with h | h
        · exact Or.inl h
        · rw [h]; exact Or.inr hf
      · exact Or.inl rfl
    · exact Or.inl rfl
  · split
    · exact Or.inl (updateState_freq_preserve _ _ _ _ (by decide))
    · split
      · exact Or.inl (updateState_freq_preserve _ _ _ _ (by decide))
      · split
        · dsimp only
          rw [updateState_freq_preserve _ _ _ _ (by decide)]
          split
          · next f heq =>
            split
            · next hf =>
              rcases updateState_freq_result f now st with h | h
              · exact Or.inl h
              · rw [h]; exact Or.inr hf
            · exact Or.inl rfl
          · exact Or.inl rfl
        · exact Or.inl rfl

theorem icom_freq_invariant (now : Nat) (st : RadioState) (frame : List Nat) :
    (icomProcessFrame now st frame).1.freq = st.freq ∨
      0 < (icomProcessFrame now st frame).1.freq := by
  unfold icomProcessFrame
  split
  · exact Or.inl rfl
  · split
    · exact Or.inl rfl
    · dsimp only
      split
      · split
        · split
          · next hf =>
            rcases updateState_freq_result _ now st with h | h
            · exact Or.inl h
            · rw [h]; exact Or.inr hf
          · exact Or.inl rfl
        · exact Or.inl rfl
      · split
        · split
          · exact Or.inl (updateState_freq_preserve _ _ _ _ (by decide))
          · exact Or.inl rfl
        · split
          · split
            · exact Or.inl (updateState_freq_preserve _ _ _ _ (by decide))
            · exact Or.inl rfl
          · exact Or.inl rfl

/-! ## Claim theorems -/

theorem freqStr_field_parse (w hz : Nat) :
    jsParseInt ((('F' :: 'A' :: (padStart w '0' (natDigits hz) ++ [';'])).drop 2).take
        (('F' :: 'A' :: (padStart w '0' (natDigits hz) ++ [';'])).length - 3))
      = some (hz : Int) := by
  have hdrop : ('F' :: 'A' :: (padStart w '0' (natDigits hz) ++ [';'])).drop 2
      = padStart w '0' (natDigits hz) ++ [';'] := rfl
  have hlen : ('F' :: 'A' :: (padStart w '0' (natDigits hz) ++ [';'])).length - 3
      = (padStart w '0' (natDigits hz)).length := by
    simp [List.length_cons, List.length_append]
  rw [hdrop, hlen, List.take_left]
  exact padStart_digits_parse w hz

/-- Decoding the Icom frequency payload always gives the requested
frequency reduced modulo `10^10`. -/

theorem bcd_mod (hz : Nat) : bcdToFreq (freqToBcd hz) = hz % 10000000000 := by
  have hlen := freqToBcdLoop_length hz 5
  have htake : (freqToBcdLoop hz 5).take 5 = freqToBcdLoop hz 5 := by
    rw [← hlen]; exact List.take_length _
  rw [bcdToFreq, freqToBcd, htake, bcdGo_freqToBcdLoop, Nat.mul_one]
  norm_num

/-- C2 (counterexample): for the binary (Icom) codec the out-of-range
frequency 10^10 Hz is not refused with a none result — it is encoded
into exactly the same frame as 0 Hz, a silent truncation. -/

theorem setFreq_out_of_range_counterexample :
    setFreqCmd (.icom 148) 10000000000 = setFreqCmd (.icom 148) 0 ∧
    setFreqCmd (.icom 148) 10000000000 ≠ none := by
  constructor
  · decide
  · decide

/-- C2 (amended): no codec ever returns none from
`setFreqCmd`.  The Yaesu and Kenwood encoders zero-pad without
truncating, so the digit field of the produced frame always parses
back to exactly `hz` (growing past the nominal 9/11-digit width for
oversized values); the Icom encoder packs exactly ten BCD digits, so
the produced payload decodes to `hz` modulo 10^10 — out-of-range
values are silently truncated rather than refused. -/

theorem setFreq_encode_behavior : ∀ hz : Nat,
    setFreqCmd .yaesu hz ≠ none ∧
    setFreqCmd .kenwood hz ≠ none ∧
    (∀ civ, setFreqCmd (.icom civ) hz ≠ none) ∧
    jsParseInt (((yaesuSetFreqStr hz).drop 2).take ((yaesuSetFreqStr hz).length - 3))
      = some (hz : Int) ∧
    jsParseInt (((kenwoodSetFreqStr hz).drop 2).take ((kenwoodSetFreqStr hz).length - 3))
      = some (hz : Int) ∧
    bcdToFreq (freqToBcd hz) = hz % 10000000000 := by
  intro hz
  refine ⟨by simp [setFreqCmd], by simp [setFreqCmd], fun civ => by simp [setFreqCmd],
    ?_, ?_, bcd_mod hz⟩
  · have h : yaesuSetFreqStr hz = 'F' :: 'A' :: (padStart 9 '0' (natDigits hz) ++ [';']) := by
      simp [yaesuSetFreqStr]
    rw [h]
    exact freqStr_field_parse 9 hz
  · have h : kenwoodSetFreqStr hz = 'F' :: 'A' :: (padStart 11 '0' (natDigits hz) ++ [';']) := by
      simp [kenwoodSetFreqStr]
    rw [h]
    exact freqStr_field_parse 11 hz

/-- C3 (counterexample): the Icom binary codec is not split-invariant.
Delivering the frame `FE FE E0 94 04 01 FD` split after its first
byte loses the frame entirely — the lone `FE` is discarded when no
complete preamble is found — so the final state and the broadcast
sequence both differ from the contiguous delivery. -/

theorem icom_split_loses_frame :
    ((icomFeed 0 (icomFeed 0 initState [] [254]).1
        (icomFeed 0 initState [] [254]).2.1 [254, 224, 148, 4, 1, 253]).1 ≠
      (icomFeed 0 initState [] ([254] ++ [254, 224, 148, 4, 1, 253])).1) ∧
    ((icomFeed 0 initState [] [254]).2.2 ++
        (icomFeed 0 (icomFeed 0 initState [] [254]).1
          (icomFeed 0 initState [] [254]).2.1 [254, 224, 148, 4, 1, 253]).2.2 ≠
      (icomFeed 0 initState [] ([254] ++ [254, 224, 148, 4, 1, 253])).2.2) := by
  constructor
  · decide
  · decide

/-- C3 (amended): for the text codec variants (Yaesu and Kenwood),
feeding a byte stream split at an arbitrary point through two
successive `parseResponse` calls yields the same final state, the
same final buffer and the same broadcast (frame) sequence as feeding
it as one contiguous call.  The Icom binary codec lacks this
property (see the counterexample). -/

theorem text_codec_split_invariance :
    ∀ (now : Nat) (st : RadioState) (buf a b : List Char),
    (yaesuFeed now st buf (a ++ b) =
      ((yaesuFeed now (yaesuFeed now st buf a).1 (yaesuFeed now st buf a).2.1 b).1,
       (yaesuFeed now (yaesuFeed now st buf a).1 (yaesuFeed now st buf a).2.1 b).2.1,
       (yaesuFeed now st buf a).2.2 ++
         (yaesuFeed now (yaesuFeed now st buf a).1 (yaesuFeed now st buf a).2.1 b).2.2)) ∧
    (kenwoodFeed now st buf (a ++ b) =
      ((kenwoodFeed now (kenwoodFeed now st buf a).1 (kenwoodFeed now st buf a).2.1 b).1,
       (kenwoodFeed now (kenwoodFeed now st buf a).1 (kenwoodFeed now st buf a).2.1 b).2.1,
       (kenwoodFeed now st buf a).2.2 ++
         (kenwoodFeed now (kenwoodFeed now st buf a).1 (kenwoodFeed now st buf a).2.1 b).2.2)) := by
  intro now st buf a b
  exact ⟨feedText_split (yaesuProcessCmd now) st buf a b,
    feedText_split (kenwoodProcessCmd now) st buf a b⟩

/-- C4: no codec ever propagates a decoded frequency of exactly 0
into the state: processing any command (or binary frame) either
leaves `state.freq` unchanged or sets it to a strictly positive
value, and the canonical all-zero frequency reports of each protocol
leave the whole state untouched and broadcast nothing. -/

theorem zero_freq_never_propagated :
    ∀ (now : Nat) (st : RadioState) (cmd : List Char) (frame : List Nat),
    ((yaesuProcessCmd now st cmd).1.freq = st.freq ∨
       0 < (yaesuProcessCmd now st cmd).1.freq) ∧
    ((kenwoodProcessCmd now st cmd).1.freq = st.freq ∨
       0 < (kenwoodProcessCmd now st cmd).1.freq) ∧
    ((icomProcessFrame now st frame).1.freq = st.freq ∨
       0 < (icomProcessFrame now st frame).1.freq) ∧
    yaesuProcessCmd now st ("FA000000000;".toList) = (st, []) ∧
    kenwoodProcessCmd now st ("FA00000000000;".toList) = (st, []) ∧
    icomProcessFrame now st [254, 254, 224, 148, 3, 0, 0, 0, 0, 0, 253] = (st, []) := by
  intro now st cmd frame
  refine ⟨yaesu_freq_invariant now st cmd, kenwood_freq_invariant now st cmd,
    icom_freq_invariant now st frame, ?_, ?_, ?_⟩
  · rfl
  · rfl
  · rfl

/-- C5: `updateState` mutates a field and broadcasts exactly when the
new value differs from the stored one; called with an equal value it
returns the state identical (including `lastUpdate`) and broadcasts
nothing. -/

theorem updateState_change_only :
    ∀ (p : StateField) (v : JsValue) (now : Nat) (s : RadioState),
    (getField s p = v → updateState p v now s = (s, [])) ∧
    (getField s p ≠ v →
      updateState p v now s = ({ setField s p v with lastUpdate := now }, [⟨p, v⟩])) := by
  intro p v now s
  constructor
  · intro h
    rw [updateState, if_pos h]
  · intro h
    rw [updateState, if_neg h]

/-- Witness for C5: re-delivering the stored frequency changes
nothing and broadcasts nothing. -/

theorem updateState_change_only_witness :
    updateState .freq (.int 0) 99 initState = (initState, []) :=
  (updateState_change_only .freq (.int 0) 99 initState).1 rfl

/-- C6: POST `/ptt` with `{ptt:true}` while PTT is disabled in the
configuration answers 403 with the distinct policy error and writes
nothing to the transport, for every protocol; with PTT enabled, every
real (non-mock) protocol performs exactly one transport write of its
PTT-on frame. -/

theorem ptt_policy_enforcement : ∀ p : Protocol,
    handlePtt false (some ⟨true⟩) p = (⟨403, some pttDisabledMsg⟩, []) ∧
    (p ≠ .mock → ∃ w, setPttCmd p true = some w ∧
      handlePtt true (some ⟨true⟩) p = (⟨200, none⟩, [w])) := by
  intro p
  constructor
  · rfl
  · intro hp
    cases p with
    | yaesu => exact ⟨_, rfl, rfl⟩
    | kenwood => exact ⟨_, rfl, rfl⟩
    | icom civ => exact ⟨_, rfl, rfl⟩
    | mock => exact absurd rfl hp

/-- Witness for C6 at the Yaesu protocol. -/

theorem ptt_policy_enforcement_witness :
    ∃ w, setPttCmd Protocol.yaesu true = some w ∧
      handlePtt true (some ⟨true⟩) Protocol.yaesu = (⟨200, none⟩, [w]) :=
  (ptt_policy_enforcement Protocol.yaesu).2 (by decide)

/-- C7 (counterexample): an `error` event on the read stream schedules
no reconnect at all (only `close` does), and a loss that raises
`error` followed by `close` broadcasts `connected=false` twice — not
exactly once. -/

theorem serial_loss_counterexample :
    (onSerialError connectedState).2.2 = [] ∧
    (onSerialError connectedState).2.1 ++
        (onSerialClose (onSerialError connectedState).1).2.1
      = [⟨.connected, .bool false⟩, ⟨.connected, .bool false⟩] := by
  exact ⟨rfl, rfl⟩

/-- C7 (amended): a `close` event sets `connected := false`,
broadcasts one `connected=false` update and schedules one reconnect
at the fixed 5000 ms delay — unconditionally, so the cycle repeats
indefinitely across failures; an `error` event sets and broadcasts
`connected=false` but schedules no reconnect itself.  Both handlers
broadcast unconditionally, even when `connected` was already false. -/

theorem serial_loss_handlers : ∀ s : RadioState,
    onSerialClose s = ({ s with connected := false }, [⟨.connected, .bool false⟩], [5000]) ∧
    onSerialError s = ({ s with connected := false }, [⟨.connected, .bool false⟩], []) ∧
    (onSerialClose (onSerialClose s).1).2.2 = [5000] := by
  intro s
  exact ⟨rfl, rfl, rfl⟩

/-- C8: a complete CI-V frame whose destination byte is not the local
controller address `0xE0` is discarded: no state change, no
broadcast, no error. -/

theorem icom_foreign_address_ignored :
    ∀ (now : Nat) (st : RadioState) (frame : List Nat),
    frame.getD 2 0 ≠ controllerAddr → icomProcessFrame now st frame = (st, []) := by
  intro now st frame h
  unfold icomProcessFrame
  split
  · rfl
  · rfl

/-- Witness for C8: an echoed command frame addressed to the radio
(`0x94`) is ignored. -/

theorem icom_foreign_address_ignored_witness :
    icomProcessFrame 0 initState [254, 254, 148, 224, 4, 1, 253] = (initState, []) :=
  icom_foreign_address_ignored 0 initState [254, 254, 148, 224, 4, 1, 253] (by decide)

/-- C9: feeding the Yaesu codec the bytes
`"FA014074000;MD03;TX0;"` leaves RadioState at frequency
14,074,000 Hz, mode `CW`, PTT off. -/

theorem yaesu_scenario_decode :
    ((yaesuFeed 0 initState [] ("FA014074000;MD03;TX0;".toList)).1.freq = 14074000) ∧
    ((yaesuFeed 0 initState [] ("FA014074000;MD03;TX0;".toList)).1.mode = ("CW".toList)) ∧
    ((yaesuFeed 0 initState [] ("FA014074000;MD03;TX0;".toList)).1.ptt = false) := by
  refine ⟨?_, ?_, ?_⟩
  · decide
  · decide
  · decide

/-- C10: every POST `/freq` whose body carries a falsy `freq` — in
particular the number 0 — is answered 400 `{error:"Missing freq"}`
with no encode and no transport write, and a request with `freq: 0`
is indistinguishable at the interface from one with no `freq` at
all. -/

theorem freq_zero_indistinguishable :
    (∀ (body : Option FreqBody) (p : Protocol), freqBodyFalsy body →
      handleFreq body p = (⟨400, some missingFreqMsg⟩, [])) ∧
    (∀ p : Protocol, handleFreq (some ⟨some 0⟩) p = handleFreq (some ⟨none⟩) p) := by
  constructor
  · rintro (_ | ⟨⟨bf⟩⟩) p hb
    · rfl
    · rcases hb with h | h
      · have hb2 : bf = none := h
        subst hb2; rfl
      · have hb2 : bf = some 0 := h
        subst hb2; rfl
  · intro p
    rfl

/-- Witness for C10: `{freq: 0}` is rejected with 400 and no write. -/

theorem freq_zero_indistinguishable_witness :
    handleFreq (some ⟨some 0⟩) Protocol.yaesu = (⟨400, some missingFreqMsg⟩, []) :=
  freq_zero_indistinguishable.1 (some ⟨some 0⟩) Protocol.yaesu (Or.inr rfl)
